import Mathlib

/-!
Verification of the CV-upload / job-search pipeline.

Shallow embedding of the two source files:
  * `jobSearch/jobSearch.py`  — the MCP tool `extract_profile`
  * `mcp-client/client.py`    — `MCPWebClient.connect_to_server` and the
    Flask handler `upload_file`

Python strings are modelled as `List Char`; `json.loads` is modelled by an
executable strict recursive-descent parser (`jsonParse`); dictionaries
produced by the JSON parser are association lists with last-occurrence
lookup (as CPython's dict building gives last-key-wins); fallible Python
code (statements that can raise) is modelled with `Option`/`Except`.
-/

abbrev Str := List Char

/-- Python `str.strip()` whitespace set (ASCII part). -/
def isPySpace (c : Char) : Bool :=
  c = ' ' || c = '\t' || c = '\n' || c = '\r' || c = '\x0b' || c = '\x0c'

/-- Python `str.strip()`: drop leading and trailing whitespace. -/
def pyStrip (s : Str) : Str :=
  ((s.dropWhile isPySpace).reverse.dropWhile isPySpace).reverse

/-- JSON values as produced by `json.loads`.  Numbers keep their source
lexeme (so `0`, `0.0`, `NaN` … are distinguishable for Python truthiness
without modelling floating point). -/
inductive Json where
  | null : Json
  | bool (b : Bool) : Json
  | num (lexeme : Str) : Json
  | str (s : Str) : Json
  | arr (elems : List Json) : Json
  | obj (members : List (Str × Json)) : Json

/-- Lookup in an object's member list; the LAST binding of a key wins,
as when CPython builds a dict from parsed members. -/
def dictGet : List (Str × Json) → Str → Option Json
  | [], _ => none
  | (k, v) :: rest, key =>
    match dictGet rest key with
    | some r => some r
    | none => if k = key then some v else none

/-- Whether a number lexeme denotes zero (Python falsiness of the float/int):
it has at least one digit and every digit in the mantissa is `0`
(`NaN`/`Infinity` have no digits, hence are truthy). -/
def numIsZero (lex : Str) : Bool :=
  let mantissa := lex.takeWhile (fun c => c ≠ 'e' && c ≠ 'E')
  let digits := mantissa.filter Char.isDigit
  decide (digits ≠ []) && digits.all (fun c => c = '0')

/-- Python truthiness of a JSON-derived value. -/
def truthy : Json → Bool
  | .null => false
  | .bool b => b
  | .num lex => ! numIsZero lex
  | .str s => decide (s ≠ [])
  | .arr xs => ! xs.isEmpty
  | .obj kvs => ! kvs.isEmpty

/-- Python `==` between a JSON-derived value and a string literal:
true only when the value is that very string (no cross-type equality). -/
def pyEqStr (v : Json) (s : Str) : Bool :=
  match v with
  | .str t => decide (t = s)
  | _ => false

/-- Is the value a Python `list` (`isinstance(v, list)`)?  Only JSON
arrays decode to lists. -/
def isList : Json → Bool
  | .arr _ => true
  | _ => false

/-- Keys of a JSON object in order (empty for non-objects). -/
def jsonKeys : Json → List Str
  | .obj kvs => kvs.map Prod.fst
  | _ => []

/-! ### A strict JSON parser, modelling `json.loads`. -/

/-- JSON inter-token whitespace. -/
def isJsonWs (c : Char) : Bool :=
  c = ' ' || c = '\t' || c = '\n' || c = '\r'

def skipWs (s : Str) : Str := s.dropWhile isJsonWs

/-- Value of one hex digit of a `\uXXXX` escape (codes 48–57 are `0`–`9`,
97–102 are `a`–`f`, 65–70 are `A`–`F`). -/
def hexVal (c : Char) : Option Nat :=
  let n := c.toNat
  if 48 ≤ n && n ≤ 57 then some (n - 48)
  else if 97 ≤ n && n ≤ 102 then some (n - 87)
  else if 65 ≤ n && n ≤ 70 then some (n - 55)
  else none

/-- Single-character escapes of JSON strings. -/
def escChar (c : Char) : Option Char :=
  if c = '"' then some '"'
  else if c = '\\' then some '\\'
  else if c = '/' then some '/'
  else if c = 'b' then some '\x08'
  else if c = 'f' then some '\x0c'
  else if c = 'n' then some '\n'
  else if c = 'r' then some '\r'
  else if c = 't' then some '\t'
  else none

/-- Parse the body of a JSON string after the opening quote; returns the
decoded characters and the input after the closing quote.  Control
characters are rejected, escapes decoded; `\uXXXX` is decoded for
non-surrogate code points (surrogate pairs are outside this model). -/
def pStringBody : Str → Option (Str × Str)
  | [] => none
  | c :: rest =>
    if c = '"' then some ([], rest)
    else if c = '\\' then
      match rest with
      | [] => none
      | e :: rest2 =>
        if e = 'u' then
          match rest2 with
          | h1 :: h2 :: h3 :: h4 :: rest3 =>
            match hexVal h1, hexVal h2, hexVal h3, hexVal h4 with
            | some a, some b, some cc, some d =>
              let n := ((a * 16 + b) * 16 + cc) * 16 + d
              if 0xD800 ≤ n && n ≤ 0xDFFF then none
              else
                match pStringBody rest3 with
                | some (s, r) => some (Char.ofNat n :: s, r)
                | none => none
            | _, _, _, _ => none
          | _ => none
        else
          match escChar e with
          | some d =>
            match pStringBody rest2 with
            | some (s, r) => some (d :: s, r)
            | none => none
          | none => none
    else if c.toNat < 32 then none
    else
      match pStringBody rest with
      | some (s, r) => some (c :: s, r)
      | none => none

/-- Digits prefix of a string: `(digits, rest)`. -/
def spanDigits (s : Str) : Str × Str :=
  (s.takeWhile Char.isDigit, s.dropWhile Char.isDigit)

/-- Parse the integer part of a strict JSON number (no sign):
`0` or a nonzero digit followed by digits. -/
def pIntPart : Str → Option (Str × Str)
  | [] => none
  | c :: rest =>
    if c = '0' then some ([c], rest)
    else if c.isDigit then
      let (ds, r) := spanDigits rest
      some (c :: ds, r)
    else none

/-- Optional fraction part `.digits` (at least one digit required). -/
def pFracPart (s : Str) : Option (Str × Str) :=
  match s with
  | '.' :: rest =>
    let (ds, r) := spanDigits rest
    if ds = [] then none else some ('.' :: ds, r)
  | _ => some ([], s)

/-- Optional exponent part `[eE][+-]?digits`. -/
def pExpPart (s : Str) : Option (Str × Str) :=
  match s with
  | c :: rest =>
    if c = 'e' || c = 'E' then
      match rest with
      | sgn :: rest2 =>
        if sgn = '+' || sgn = '-' then
          let (ds, r) := spanDigits rest2
          if ds = [] then none else some (c :: sgn :: ds, r)
        else
          let (ds, r) := spanDigits rest
          if ds = [] then none else some (c :: ds, r)
      | [] => none
    else some ([], s)
  | [] => some ([], s)

/-- Parse a strict JSON number starting at `s` (which may begin with `-`);
returns the lexeme and the rest. -/
def pNumber (s : Str) : Option (Str × Str) :=
  let (sign, s1) : Str × Str :=
    match s with
    | '-' :: rest => (['-'], rest)
    | _ => ([], s)
  match pIntPart s1 with
  | none => none
  | some (ip, s2) =>
    match pFracPart s2 with
    | none => none
    | some (fp, s3) =>
      match pExpPart s3 with
      | none => none
      | some (ep, s4) => some (sign ++ ip ++ fp ++ ep, s4)

/-- Which production the fuelled parser is running. -/
inductive PK where
  | val : PK
  | members : PK
  | elems : PK

/-- Fuelled recursive-descent parser for a JSON value.  With tag
`PK.members` it parses the member list of an object after `{` (first
member onward) and returns the finished `Json.obj`; with `PK.elems` the
element list of an array and returns the finished `Json.arr`.
`json.loads` also accepts `NaN`, `Infinity` and `-Infinity`. -/
def parseF : Nat → PK → Str → Option (Json × Str)
  | 0, _, _ => none
  | fuel + 1, PK.val, s =>
    match s with
    | [] => none
    | c :: rest =>
      if c = '{' then
        match skipWs rest with
        | '}' :: r => some (.obj [], r)
        | s1 => parseF fuel PK.members s1
      else if c = '[' then
        match skipWs rest with
        | ']' :: r => some (.arr [], r)
        | s1 => parseF fuel PK.elems s1
      else if c = '"' then
        match pStringBody rest with
        | some (str, r) => some (.str str, r)
        | none => none
      else if c = 't' then
        match rest with
        | 'r' :: 'u' :: 'e' :: r => some (.bool true, r)
        | _ => none
      else if c = 'f' then
        match rest with
        | 'a' :: 'l' :: 's' :: 'e' :: r => some (.bool false, r)
        | _ => none
      else if c = 'n' then
        match rest with
        | 'u' :: 'l' :: 'l' :: r => some (.null, r)
        | _ => none
      else if c = 'N' then
        match rest with
        | 'a' :: 'N' :: r => some (.num ['N', 'a', 'N'], r)
        | _ => none
      else if c = 'I' then
        match rest with
        | 'n' :: 'f' :: 'i' :: 'n' :: 'i' :: 't' :: 'y' :: r =>
          some (.num ("Infinity".toList), r)
        | _ => none
      else if c = '-' then
        match rest with
        | 'I' :: 'n' :: 'f' :: 'i' :: 'n' :: 'i' :: 't' :: 'y' :: r =>
          some (.num ("-Infinity".toList), r)
        | _ =>
          match pNumber s with
          | some (lex, r) => some (.num lex, r)
          | none => none
      else if c.isDigit then
        match pNumber s with
        | some (lex, r) => some (.num lex, r)
        | none => none
      else none
  | fuel + 1, PK.members, s =>
    match s with
    | '"' :: rest =>
      match pStringBody rest with
      | some (key, r1) =>
        match skipWs r1 with
        | ':' :: r2 =>
          match parseF fuel PK.val (skipWs r2) with
          | some (v, r3) =>
            match skipWs r3 with
            | ',' :: r4 =>
              match parseF fuel PK.members (skipWs r4) with
              | some (Json.obj kvs, r5) => some (.obj ((key, v) :: kvs), r5)
              | _ => none
            | '}' :: r4 => some (.obj [(key, v)], r4)
            | _ => none
          | none => none
        | _ => none
      | none => none
    | _ => none
  | fuel + 1, PK.elems, s =>
    match parseF fuel PK.val s with
    | some (v, r1) =>
      match skipWs r1 with
      | ',' :: r2 =>
        match parseF fuel PK.elems (skipWs r2) with
        | some (Json.arr xs, r) => some (.arr (v :: xs), r)
        | _ => none
      | ']' :: r2 => some (.arr [v], r2)
      | _ => none
    | none => none

/-- `json.loads`: parse exactly one JSON value, allowing surrounding
whitespace, requiring the whole input to be consumed. -/
def jsonParse (s : Str) : Option Json :=
  match parseF (s.length + 1) PK.val (skipWs s) with
  | some (v, rest) => if skipWs rest = [] then some v else none
  | none => none


/-! ### Python `str.replace(pattern, "")`, as used for fence stripping.

`client.py` removes the wrappers with
`extracted_text.replace("```json", "").replace("```", "").strip()`.
CPython's `str.replace` scans left to right: at each position, if the
pattern matches it is consumed (and, with replacement `""`, dropped),
otherwise one character is emitted.  The fuel argument (initially the
string length) only makes the recursion structural. -/
def pyReplaceDelF (p : Str) : Nat → Str → Str
  | 0, s => s
  | _ + 1, [] => []
  | n + 1, a :: rest =>
    if p.isPrefixOf (a :: rest) then pyReplaceDelF p n ((a :: rest).drop p.length)
    else a :: pyReplaceDelF p n rest

/-- Python `s.replace(p, "")` for a nonempty pattern `p`. -/
def pyReplaceDel (p : Str) (s : Str) : Str := pyReplaceDelF p s.length s

/-! ### Model of `jobSearch/jobSearch.py`, tool `extract_profile`
(lines 63–75): strict-parse the stripped raw text; on failure return an
error object carrying the raw text verbatim. -/

def sError : Str := "error".toList
def sRaw : Str := "raw".toList
def badJsonMsg : Str := "Claude did not return valid JSON".toList

/-- Result of the `extract_profile` tool for a given raw completion text:
the parsed JSON on success, else `{"error": ..., "raw": raw}`. -/
def extract_profile (raw : Str) : Json :=
  match jsonParse (pyStrip raw) with
  | some profile => profile
  | none => Json.obj [(sError, Json.str badJsonMsg), (sRaw, Json.str raw)]

/-! ### Model of `mcp-client/client.py`. -/

def sSkills : Str := "skills".toList
def sLocation : Str := "location".toList
def sExperience : Str := "experience".toList
def sJobRole : Str := "jobRole".toList
def sJobTitle : Str := "jobTitle".toList
def sJobs : Str := "jobs".toList
def sNA : Str := "N/A".toList
def sTitle : Str := "title".toList
def sCompany : Str := "company".toList
def sCompanyName : Str := "company_name".toList
def sLink : Str := "link".toList
def sShareLink : Str := "share_link".toList
def sDescription : Str := "description".toList
def sJobsResults : Str := "jobs_results".toList
def sSoftwareEngineer : Str := "Software Engineer".toList
def sUs : Str := "us".toList
def sEllipsis : Str := "...".toList
def sHash : Str := "#".toList
def fenceJson : Str := "```json".toList
def tick3 : Str := "```".toList

/-- `connect_to_server` (client.py lines 30–39): pick the interpreter from
the script extension; an unrecognized extension raises `ValueError` before
`StdioServerParameters` is built, so no child process is ever spawned.
`Except.ok` carries the `command` the child would be spawned with. -/
def connect_to_server (server_script_path : Str) : Except Str Str :=
  let is_python := (".py".toList).isSuffixOf server_script_path
  let is_js := (".js".toList).isSuffixOf server_script_path
  if ! (is_python || is_js) then
    Except.error ("Server script must be a .py or .js file".toList)
  else
    Except.ok (if is_python then "python".toList else "node".toList)

/-- client.py lines 114–119: remove the ```json / ``` wrappers, then strip. -/
def cleaned_text (extracted_text : Str) : Str :=
  pyStrip (pyReplaceDel tick3 (pyReplaceDel fenceJson extracted_text))

/-- The fallback profile substituted when the strict parse fails
(client.py line 124). -/
def sentinelParsed : Json :=
  Json.obj [(sSkills, Json.arr [Json.str sNA]), (sLocation, Json.str sNA),
            (sExperience, Json.str sNA), (sJobRole, Json.str sNA)]

/-- client.py lines 121–124: `parsed` after the try/except around
`json.loads(cleaned_text)`. -/
def parsed_of (extracted_text : Str) : Json :=
  match jsonParse (cleaned_text extracted_text) with
  | some p => p
  | none => sentinelParsed

/-- client.py lines 129–130: a non-list `skills` value is coerced to
`[skills]` if truthy, else to `["N/A"]`. -/
def coerceSkills (v : Json) : List Json :=
  match v with
  | Json.arr xs => xs
  | v => if truthy v then [v] else [Json.str sNA]

/-- client.py line 128–130: the `skills` local; `none` models the
`AttributeError` raised by `.get` when `parsed` is not a dict. -/
def skillsField (parsed : Json) : Option (List Json) :=
  match parsed with
  | Json.obj kvs =>
    some (coerceSkills ((dictGet kvs sSkills).getD (Json.arr [Json.str sNA])))
  | _ => none

/-- `parsed.get(key, "N/A")` (client.py lines 132–134). -/
def getField (parsed : Json) (key : Str) : Option Json :=
  match parsed with
  | Json.obj kvs => some ((dictGet kvs key).getD (Json.str sNA))
  | _ => none

/-- client.py line 139: `jobRole if jobRole != "N/A" else "Software Engineer"`. -/
def queryParamOf (jobRole : Json) : Json :=
  if pyEqStr jobRole sNA then Json.str sSoftwareEngineer else jobRole

/-- client.py line 140: `location if location != "N/A" else "us"`. -/
def countryParamOf (location : Json) : Json :=
  if pyEqStr location sNA then Json.str sUs else location

/-- client.py lines 137–141: the `{query, country}` pair passed to the
search provider (the `api_key` entry is an environment secret, not
modelled). -/
def search_params (parsed : Json) : Option (Json × Json) :=
  match parsed with
  | Json.obj kvs =>
    some (queryParamOf ((dictGet kvs sJobRole).getD (Json.str sNA)),
          countryParamOf ((dictGet kvs sLocation).getD (Json.str sNA)))
  | _ => none

/-- One produced job listing (client.py lines 152–158). -/
structure JobListing where
  title : Json
  company : Json
  location : Json
  link : Json
  description : Str

/-- Outcome of `requests.get` on the search provider: a response with a
status code and (when it was valid JSON) a parsed body, or a raised
transport error. -/
inductive HttpResult where
  | resp (status : Nat) (body : Option Json)
  | raised

/-- Loop body of client.py lines 151–158: build one listing from one
provider entry.  `none` models the exception raised when the entry is
not a dict or its `description` is not sliceable-and-concatenable with a
string; the description is truncated to 300 characters and `"..."` is
appended. -/
def mkListing (job : Json) : Option JobListing :=
  match job with
  | Json.obj kvs =>
    match (dictGet kvs sDescription).getD (Json.str sNA) with
    | Json.str d =>
      some { title := (dictGet kvs sTitle).getD (Json.str sNA),
             company := (dictGet kvs sCompanyName).getD (Json.str sNA),
             location := (dictGet kvs sLocation).getD (Json.str sNA),
             link := (dictGet kvs sShareLink).getD (Json.str sHash),
             description := d.take 300 ++ sEllipsis }
    | _ => none
  | _ => none

/-- The `for` loop appending to `jobs_data`: an exception part-way keeps
what was already appended (the surrounding `try` catches it). -/
def collectJobs : List Json → List JobListing
  | [] => []
  | j :: rest =>
    match mkListing j with
    | some l => l :: collectJobs rest
    | none => []

/-- client.py lines 145–162: `jobs_data` after the guarded search call.
Every failure path (raised request, non-200 status, non-JSON body,
non-dict body, non-list `jobs_results`) leaves the initial `[]`. -/
def jobs_data (r : HttpResult) : List JobListing :=
  match r with
  | .raised => []
  | .resp status body =>
    if status = 200 then
      match body with
      | some (Json.obj kvs) =>
        match (dictGet kvs sJobsResults).getD (Json.arr []) with
        | Json.arr js => collectJobs (js.take 5)
        | _ => []
      | _ => []
    else []

/-- Serialization of one listing in the response (client.py lines 152–158). -/
def listingJson (l : JobListing) : Json :=
  Json.obj [(sTitle, l.title), (sCompany, l.company), (sLocation, l.location),
            (sLink, l.link), (sDescription, Json.str l.description)]

/-- The four profile entries of the response body (client.py lines
168–171); `none` models the `AttributeError` when `parsed` is not a dict. -/
def profileEntries (parsed : Json) : Option (List (Str × Json)) :=
  match parsed with
  | Json.obj kvs =>
    some [(sSkills, Json.arr (coerceSkills ((dictGet kvs sSkills).getD (Json.arr [Json.str sNA])))),
          (sLocation, (dictGet kvs sLocation).getD (Json.str sNA)),
          (sExperience, (dictGet kvs sExperience).getD (Json.str sNA)),
          (sJobRole, (dictGet kvs sJobRole).getD (Json.str sNA))]
  | _ => none

/-- client.py lines 112–173 after the model-extraction call: the JSON
body returned by `upload_file`, as an ordered key/value list, given the
raw extraction output and the search provider's behaviour. -/
def upload_file (extracted_text : Str) (search : HttpResult) :
    Option (List (Str × Json)) :=
  (profileEntries (parsed_of extracted_text)).map
    (fun pe => pe ++ [(sJobs, Json.arr ((jobs_data search).map listingJson))])

/-- The §8 example tool output (spec property 5): `skills` is a bare
string, the title key is the tool contract's `jobTitle`. -/
def exampleProfileText : Str :=
  "\x7b\"skills\":\"Go\",\"experience\":\"5y\",\"location\":\"N/A\",\"jobTitle\":\"Engineer\"\x7d".toList

/-- A well-formed provider job entry used for concrete witnesses. -/
def sampleJob : Json :=
  Json.obj [(sTitle, Json.str "T".toList), (sDescription, Json.str "d".toList)]

/-- A provider result list with 8 entries (spec property 9). -/
def eightJobs : List Json := List.replicate 8 sampleJob

/-! ### Equational characterization of `pyReplaceDel`, and the fence lemmas. -/

theorem take_append_le {α : Type} (l₁ l₂ : List α) (n : Nat) (h : n ≤ l₁.length) :
    (l₁ ++ l₂).take n = l₁.take n := by
  conv_lhs => rw [← List.take_append_drop n l₁, List.append_assoc]
  rw [List.take_left' (by rw [List.length_take]; omega)]

theorem drop_append_le {α : Type} (l₁ l₂ : List α) (n : Nat) (h : n ≤ l₁.length) :
    (l₁ ++ l₂).drop n = l₁.drop n ++ l₂ := by
  conv_lhs => rw [← List.take_append_drop n l₁, List.append_assoc]
  rw [List.drop_left' (by rw [List.length_take]; omega)]

/-- The fuel argument of `pyReplaceDelF` is irrelevant once it reaches the
string length. -/
theorem pyReplaceDelF_fuel (p : Str) (hp : p ≠ []) :
    ∀ n m (s : Str), s.length ≤ n → s.length ≤ m →
      pyReplaceDelF p n s = pyReplaceDelF p m s := by
  intro n
  induction n with
  | zero =>
    intro m s hn _
    have hs : s = [] := List.eq_nil_of_length_eq_zero (Nat.le_zero.mp hn)
    subst hs
    cases m <;> rfl
  | succ n ih =>
    intro m s hn hm
    cases s with
    | nil => cases m <;> rfl
    | cons a rest =>
      cases m with
      | zero => simp at hm
      | succ m' =>
        have hp1 : 1 ≤ p.length := by
          cases p with
          | nil => exact absurd rfl hp
          | cons c cs => simp
        simp only [List.length_cons] at hn hm
        simp only [pyReplaceDelF]
        by_cases h : p.isPrefixOf (a :: rest) = true
        · rw [if_pos h, if_pos h]
          apply ih
          · rw [List.length_drop]; simp only [List.length_cons]; omega
          · rw [List.length_drop]; simp only [List.length_cons]; omega
        · rw [if_neg h, if_neg h]
          congr 1
          exact ih m' rest (by omega) (by omega)

theorem pyReplaceDel_pos {p : Str} (hp : p ≠ []) {s : Str}
    (h : p.isPrefixOf s = true) (hs : s ≠ []) :
    pyReplaceDel p s = pyReplaceDel p (s.drop p.length) := by
  cases s with
  | nil => exact absurd rfl hs
  | cons a rest =>
    have hp1 : 1 ≤ p.length := by
      cases p with
      | nil => exact absurd rfl hp
      | cons c cs => simp
    show pyReplaceDelF p (rest.length + 1) (a :: rest) = _
    simp only [pyReplaceDelF]
    rw [if_pos h]
    exact pyReplaceDelF_fuel p hp _ _ _
      (by rw [List.length_drop]; simp only [List.length_cons]; omega) (le_refl _)

theorem pyReplaceDel_neg {p : Str} (a : Char) (rest : Str)
    (h : ¬ p.isPrefixOf (a :: rest) = true) :
    pyReplaceDel p (a :: rest) = a :: pyReplaceDel p rest := by
  show pyReplaceDelF p (rest.length + 1) (a :: rest) = _
  simp only [pyReplaceDelF]
  rw [if_neg h]
  rfl

theorem prefix_isPrefixOf (p u : Str) : p.isPrefixOf (p ++ u) = true :=
  List.isPrefixOf_iff_prefix.mpr (List.prefix_append p u)

/-- A trailing `"```"` is absorbed by `replace("```", "")`: the final
run of backticks leaves the same residue with or without it. -/
theorem ticksAbsorb (s : Str) :
    pyReplaceDel tick3 (s ++ tick3) = pyReplaceDel tick3 s := by
  have hT : tick3 ≠ [] := by decide
  suffices main : ∀ n (s : Str), s.length ≤ n →
      pyReplaceDel tick3 (s ++ tick3) = pyReplaceDel tick3 s from
    main s.length s le_rfl
  intro n
  induction n with
  | zero =>
    intro s hs
    have h0 : s = [] := List.eq_nil_of_length_eq_zero (Nat.le_zero.mp hs)
    subst h0
    decide
  | succ n ih =>
    intro s hs
    by_cases hp : tick3.isPrefixOf s = true
    · obtain ⟨u, hu⟩ := List.isPrefixOf_iff_prefix.mp hp
      subst hu
      rw [List.append_assoc]
      rw [pyReplaceDel_pos hT (prefix_isPrefixOf _ _)
        (List.append_ne_nil_of_left_ne_nil hT _), List.drop_left]
      rw [pyReplaceDel_pos hT (prefix_isPrefixOf _ _)
        (List.append_ne_nil_of_left_ne_nil hT _), List.drop_left]
      refine ih u ?_
      simp only [List.length_append] at hs
      have h3 : tick3.length = 3 := by decide
      omega
    · by_cases hq : tick3.isPrefixOf (s ++ tick3) = true
      · obtain ⟨u, hu⟩ := List.isPrefixOf_iff_prefix.mp hq
        have hlen : s.length ≤ 2 := by
          by_contra hlen
          push_neg at hlen
          apply hp
          have h3 : (3:Nat) ≤ s.length := hlen
          have htk : s.take 3 = tick3 := by
            have h := congrArg (List.take 3) hu
            rw [take_append_le tick3 u 3 (by decide)] at h
            rw [take_append_le s tick3 3 h3] at h
            rw [List.take_of_length_le (by decide : tick3.length ≤ 3)] at h
            exact h.symm
          exact List.isPrefixOf_iff_prefix.mpr
            ⟨s.drop 3, by rw [← htk]; exact List.take_append_drop 3 s⟩
        have hs_eq : s = tick3.take s.length := by
          have h := congrArg (List.take s.length) hu
          rw [take_append_le tick3 u s.length
            (le_trans hlen (by decide : (2:Nat) ≤ tick3.length))] at h
          rw [List.take_left] at h
          exact h.symm
        have h012 : s.length = 0 ∨ s.length = 1 ∨ s.length = 2 := by omega
        rcases h012 with h0 | h1 | h2
        · rw [h0] at hs_eq; rw [hs_eq]; decide
        · rw [h1] at hs_eq; rw [hs_eq]; decide
        · rw [h2] at hs_eq; rw [hs_eq]; decide
      · cases s with
        | nil =>
          refine absurd ?_ hq
          rw [List.nil_append]
          exact List.isPrefixOf_iff_prefix.mpr (List.prefix_refl _)
        | cons a rest =>
          have hq' : ¬ tick3.isPrefixOf (a :: (rest ++ tick3)) = true := by
            simpa using hq
          rw [show (a :: rest) ++ tick3 = a :: (rest ++ tick3) from rfl]
          rw [pyReplaceDel_neg a (rest ++ tick3) hq']
          rw [pyReplaceDel_neg a rest hp]
          rw [ih rest (by simp only [List.length_cons] at hs; omega)]

/-- `replace("```json", "")` cannot consume any of a trailing `"```"`:
the pattern needs the letters `json` where the trailing marker has only
backticks, so the marker passes through unchanged. -/
theorem fencesAppend (s : Str) :
    pyReplaceDel fenceJson (s ++ tick3) = pyReplaceDel fenceJson s ++ tick3 := by
  have hF : fenceJson ≠ [] := by decide
  suffices main : ∀ n (s : Str), s.length ≤ n →
      pyReplaceDel fenceJson (s ++ tick3) = pyReplaceDel fenceJson s ++ tick3 from
    main s.length s le_rfl
  intro n
  induction n with
  | zero =>
    intro s hs
    have h0 : s = [] := List.eq_nil_of_length_eq_zero (Nat.le_zero.mp hs)
    subst h0
    decide
  | succ n ih =>
    intro s hs
    by_cases hp : fenceJson.isPrefixOf s = true
    · obtain ⟨u, hu⟩ := List.isPrefixOf_iff_prefix.mp hp
      subst hu
      rw [List.append_assoc]
      rw [pyReplaceDel_pos hF (prefix_isPrefixOf _ _)
        (List.append_ne_nil_of_left_ne_nil hF _), List.drop_left]
      rw [pyReplaceDel_pos hF (prefix_isPrefixOf _ _)
        (List.append_ne_nil_of_left_ne_nil hF _), List.drop_left]
      refine ih u ?_
      simp only [List.length_append] at hs
      have h7 : fenceJson.length = 7 := by decide
      omega
    · have hq : ¬ fenceJson.isPrefixOf (s ++ tick3) = true := by
        intro hq
        obtain ⟨u, hu⟩ := List.isPrefixOf_iff_prefix.mp hq
        have hlen : s.length + 3 = 7 + u.length := by
          have h := congrArg List.length hu
          simp only [List.length_append] at h
          have h7 : fenceJson.length = 7 := by decide
          have h3 : tick3.length = 3 := by decide
          omega
        by_cases h7 : 7 ≤ s.length
        · apply hp
          have htk : s.take 7 = fenceJson := by
            have h := congrArg (List.take 7) hu
            rw [take_append_le fenceJson u 7 (by decide)] at h
            rw [take_append_le s tick3 7 h7] at h
            rw [List.take_of_length_le (by decide : fenceJson.length ≤ 7)] at h
            exact h.symm
          exact List.isPrefixOf_iff_prefix.mpr
            ⟨s.drop 7, by rw [← htk]; exact List.take_append_drop 7 s⟩
        · have hdrop : tick3 = fenceJson.drop s.length ++ u := by
            have h := congrArg (List.drop s.length) hu
            rw [drop_append_le fenceJson u s.length
              (le_trans (by omega : s.length ≤ 7)
                (by decide : (7:Nat) ≤ fenceJson.length))] at h
            rw [List.drop_left] at h
            exact h.symm
          have h46 : s.length = 4 ∨ s.length = 5 ∨ s.length = 6 := by omega
          rcases h46 with h4 | h5 | h6
          · rw [h4] at hdrop
            have hh : tick3.head? = (fenceJson.drop 4 ++ u).head? :=
              congrArg List.head? hdrop
            rw [show (fenceJson.drop 4 ++ u).head? = some 's' from rfl] at hh
            exact absurd hh (by decide)
          · rw [h5] at hdrop
            have hh : tick3.head? = (fenceJson.drop 5 ++ u).head? :=
              congrArg List.head? hdrop
            rw [show (fenceJson.drop 5 ++ u).head? = some 'o' from rfl] at hh
            exact absurd hh (by decide)
          · rw [h6] at hdrop
            have hh : tick3.head? = (fenceJson.drop 6 ++ u).head? :=
              congrArg List.head? hdrop
            rw [show (fenceJson.drop 6 ++ u).head? = some 'n' from rfl] at hh
            exact absurd hh (by decide)
      cases s with
      | nil => decide
      | cons a rest =>
        have hq' : ¬ fenceJson.isPrefixOf (a :: (rest ++ tick3)) = true := by
          simpa using hq
        rw [show (a :: rest) ++ tick3 = a :: (rest ++ tick3) from rfl]
        rw [pyReplaceDel_neg a (rest ++ tick3) hq']
        rw [pyReplaceDel_neg a rest hp]
        rw [ih rest (by simp only [List.length_cons] at hs; omega)]
        rfl

/-- Wrapping any extraction output in the ```json … ``` fence leaves the
cleaned text unchanged: the cleaning pass removes exactly the wrapper. -/
theorem cleaned_text_wrap (s : Str) :
    cleaned_text (fenceJson ++ s ++ tick3) = cleaned_text s := by
  have hF : fenceJson ≠ [] := by decide
  unfold cleaned_text
  have h1 : pyReplaceDel fenceJson (fenceJson ++ s ++ tick3)
      = pyReplaceDel fenceJson s ++ tick3 := by
    rw [List.append_assoc]
    rw [pyReplaceDel_pos hF (prefix_isPrefixOf _ _)
      (List.append_ne_nil_of_left_ne_nil hF _), List.drop_left]
    exact fencesAppend s
  rw [h1, ticksAbsorb]

/-! ### Claim theorems. -/

/-- `pyEqStr` decides equality with a string value. -/
theorem pyEqStr_iff (v : Json) (s : Str) : pyEqStr v s = true ↔ v = Json.str s := by
  cases v <;> simp [pyEqStr]

/-- C5: a server script path whose extension is neither `.py` nor `.js`
makes `connect_to_server` fail (with the `ValueError`, the spec's
`UnsupportedScriptKind`) before any interpreter is selected, so no child
process is spawned; `.py` selects `python` and `.js` selects `node`
before spawning. -/
theorem connect_extension_dispatch (server_script_path : Str) :
    (¬ (".py".toList).isSuffixOf server_script_path = true →
     ¬ (".js".toList).isSuffixOf server_script_path = true →
       connect_to_server server_script_path =
         Except.error ("Server script must be a .py or .js file".toList)) ∧
    ((".py".toList).isSuffixOf server_script_path = true →
       connect_to_server server_script_path = Except.ok ("python".toList)) ∧
    ((".js".toList).isSuffixOf server_script_path = true →
       connect_to_server server_script_path = Except.ok ("node".toList)) := by
  refine ⟨?_, ?_, ?_⟩
  · intro hpy hjs
    rw [Bool.not_eq_true] at hpy hjs
    simp only [connect_to_server]
    rw [hpy, hjs]
    rfl
  · intro hpy
    simp only [connect_to_server]
    rw [hpy]
    rfl
  · intro hjs
    have hpy : (".py".toList).isSuffixOf server_script_path = false := by
      cases hb : (".py".toList).isSuffixOf server_script_path with
      | false => rfl
      | true =>
        exfalso
        obtain ⟨t1, h1⟩ := List.isSuffixOf_iff_suffix.mp hb
        obtain ⟨t2, h2⟩ := List.isSuffixOf_iff_suffix.mp hjs
        have h := h1.trans h2.symm
        have heq := (List.append_inj' h (by decide)).2
        exact absurd heq (by decide)
    simp only [connect_to_server]
    rw [hjs, hpy]
    rfl

/-- C5 witness: concrete paths of each kind. -/
theorem connect_extension_dispatch_witness :
    connect_to_server "weather.py".toList = Except.ok ("python".toList) ∧
    connect_to_server "server.js".toList = Except.ok ("node".toList) ∧
    connect_to_server "script.txt".toList =
      Except.error ("Server script must be a .py or .js file".toList) :=
  ⟨(connect_extension_dispatch _).2.1 (by decide),
   (connect_extension_dispatch _).2.2 (by decide),
   (connect_extension_dispatch _).1 (by decide) (by decide)⟩

/-- C6: the outbound query uses the extracted `jobRole` unless it equals
the sentinel `"N/A"` (then `"Software Engineer"`), and the extracted
`location` as country unless it equals `"N/A"` (then `"us"`). -/
theorem search_query_defaults (kvs : List (Str × Json)) :
    ∃ q c, search_params (Json.obj kvs) = some (q, c) ∧
      ((dictGet kvs sJobRole).getD (Json.str sNA) = Json.str sNA →
          q = Json.str sSoftwareEngineer) ∧
      ((dictGet kvs sJobRole).getD (Json.str sNA) ≠ Json.str sNA →
          q = (dictGet kvs sJobRole).getD (Json.str sNA)) ∧
      ((dictGet kvs sLocation).getD (Json.str sNA) = Json.str sNA →
          c = Json.str sUs) ∧
      ((dictGet kvs sLocation).getD (Json.str sNA) ≠ Json.str sNA →
          c = (dictGet kvs sLocation).getD (Json.str sNA)) := by
  refine ⟨queryParamOf ((dictGet kvs sJobRole).getD (Json.str sNA)),
          countryParamOf ((dictGet kvs sLocation).getD (Json.str sNA)),
          rfl, ?_, ?_, ?_, ?_⟩
  · intro h
    unfold queryParamOf
    rw [if_pos ((pyEqStr_iff _ _).mpr h)]
  · intro h
    unfold queryParamOf
    rw [if_neg (fun hc => h ((pyEqStr_iff _ _).mp hc))]
  · intro h
    unfold countryParamOf
    rw [if_pos ((pyEqStr_iff _ _).mpr h)]
  · intro h
    unfold countryParamOf
    rw [if_neg (fun hc => h ((pyEqStr_iff _ _).mp hc))]

/-- C6 witness: both fields equal to the sentinel give the defaults. -/
theorem search_query_defaults_witness :
    search_params (Json.obj [(sJobRole, Json.str sNA), (sLocation, Json.str sNA)]) =
      some (Json.str sSoftwareEngineer, Json.str sUs) := by
  obtain ⟨q, c, h, h1, _, h3, _⟩ :=
    search_query_defaults [(sJobRole, Json.str sNA), (sLocation, Json.str sNA)]
  rw [h, h1 (by rfl), h3 (by rfl)]

theorem collectJobs_length_le (js : List Json) :
    (collectJobs js).length ≤ js.length := by
  induction js with
  | nil => simp [collectJobs]
  | cons j rest ih =>
    simp only [collectJobs]
    cases mkListing j with
    | none => simp
    | some l => simp only [List.length_cons]; omega

theorem jobs_data_length_le (r : HttpResult) : (jobs_data r).length ≤ 5 := by
  have take5 : ∀ js : List Json, (collectJobs (js.take 5)).length ≤ 5 := by
    intro js
    refine le_trans (collectJobs_length_le _) ?_
    simp [List.length_take]
  cases r with
  | raised => simp [jobs_data]
  | resp status body =>
    by_cases h200 : status = 200
    · subst h200
      cases body with
      | none => simp [jobs_data]
      | some b =>
        cases b with
        | obj kvs =>
          simp only [jobs_data, if_pos rfl]
          cases hjr : (dictGet kvs sJobsResults).getD (Json.arr []) with
          | arr js => exact take5 js
          | null => simp
          | bool bb => simp
          | num l => simp
          | str t => simp
          | obj m => simp
        | null => simp [jobs_data]
        | bool bb => simp [jobs_data]
        | num l => simp [jobs_data]
        | str t => simp [jobs_data]
        | arr xs => simp [jobs_data]
    · simp [jobs_data, h200]

/-- C7: the produced jobs list never exceeds 5 entries; on a 200 response
whose body carries a `jobs_results` list, exactly the first 5 entries are
consumed, in order. -/
theorem jobs_take_five (r : HttpResult) (kvs : List (Str × Json)) (js : List Json) :
    (jobs_data r).length ≤ 5 ∧
    (dictGet kvs sJobsResults = some (Json.arr js) →
        jobs_data (HttpResult.resp 200 (some (Json.obj kvs))) =
          collectJobs (js.take 5)) ∧
    ((∀ j ∈ js.take 5, (mkListing j).isSome = true) →
        collectJobs (js.take 5) = (js.take 5).filterMap mkListing) := by
  refine ⟨jobs_data_length_le r, ?_, ?_⟩
  · intro h
    simp only [jobs_data, if_pos rfl, h, Option.getD_some, if_true]
  · generalize js.take 5 = l
    intro hall
    induction l with
    | nil => rfl
    | cons j rest ih =>
      have hj := hall j (by simp)
      obtain ⟨lj, hlj⟩ := Option.isSome_iff_exists.mp hj
      simp only [collectJobs, List.filterMap_cons, hlj]
      rw [ih (fun x hx => hall x (by simp [hx]))]

/-- C7 witness: a provider response with 8 well-formed jobs yields
exactly 5 listings. -/
theorem jobs_take_five_witness :
    jobs_data (HttpResult.resp 200 (some (Json.obj [(sJobsResults, Json.arr eightJobs)])))
      = collectJobs (eightJobs.take 5) ∧
    (collectJobs (eightJobs.take 5)).length = 5 :=
  ⟨(jobs_take_five HttpResult.raised [(sJobsResults, Json.arr eightJobs)] eightJobs).2.1 rfl,
   rfl⟩

/-- C3 counterexample: a 3-character source description is NOT preserved
unchanged — the ellipsis marker is appended even though it fits in 300
characters. -/
theorem description_short_not_preserved :
    (mkListing (Json.obj [(sDescription, Json.str "abc".toList)])).map
        JobListing.description = some ("abc...".toList) ∧
    "abc...".toList ≠ "abc".toList :=
  ⟨rfl, by decide⟩

/-- C3 (amended): for every provider entry whose `description` is a string
(or absent, defaulting to `"N/A"`), the produced description is the first
300 characters of the source followed by `"..."` — the marker is appended
unconditionally — hence its length is at most 303. -/
theorem description_truncated (kvs : List (Str × Json)) (d : Str)
    (h : (dictGet kvs sDescription).getD (Json.str sNA) = Json.str d) :
    ∃ l, mkListing (Json.obj kvs) = some l ∧
      l.description = d.take 300 ++ sEllipsis ∧
      l.description.length ≤ 303 := by
  have hm : mkListing (Json.obj kvs) =
      some { title := (dictGet kvs sTitle).getD (Json.str sNA),
             company := (dictGet kvs sCompanyName).getD (Json.str sNA),
             location := (dictGet kvs sLocation).getD (Json.str sNA),
             link := (dictGet kvs sShareLink).getD (Json.str sHash),
             description := d.take 300 ++ sEllipsis } := by
    have hred : mkListing (Json.obj kvs) =
        match (dictGet kvs sDescription).getD (Json.str sNA) with
        | Json.str dd =>
          some { title := (dictGet kvs sTitle).getD (Json.str sNA),
                 company := (dictGet kvs sCompanyName).getD (Json.str sNA),
                 location := (dictGet kvs sLocation).getD (Json.str sNA),
                 link := (dictGet kvs sShareLink).getD (Json.str sHash),
                 description := dd.take 300 ++ sEllipsis }
        | _ => none := rfl
    rw [hred, h]
  refine ⟨_, hm, rfl, ?_⟩
  simp only [List.length_append, List.length_take]
  have h3 : sEllipsis.length = 3 := by decide
  omega

/-- C3 witness: a short description, truncation behaviour evaluated. -/
theorem description_truncated_witness :
    ∃ l, mkListing (Json.obj [(sDescription, Json.str "hello".toList)]) = some l ∧
      l.description = ("hello".toList).take 300 ++ sEllipsis ∧
      l.description.length ≤ 303 :=
  description_truncated [(sDescription, Json.str "hello".toList)] "hello".toList rfl

/-- C4: when the outbound search request fails — a raised transport error
or any non-200 status — `jobs_data` stays empty, and the response still
carries the profile entries from the parsing stage with `jobs = []`; no
error escapes to the caller (the response exists whenever the profile
entries do). -/
theorem search_failure_degrades (extracted_text : Str) (r : HttpResult)
    (h : r = HttpResult.raised ∨
         ∃ status body, r = HttpResult.resp status body ∧ status ≠ 200) :
    jobs_data r = [] ∧
    upload_file extracted_text r =
      (profileEntries (parsed_of extracted_text)).map
        (fun pe => pe ++ [(sJobs, Json.arr [])]) ∧
    (upload_file extracted_text r).isSome =
      (profileEntries (parsed_of extracted_text)).isSome := by
  have hjobs : jobs_data r = [] := by
    rcases h with h | ⟨status, body, hr, hst⟩
    · rw [h]; rfl
    · rw [hr]
      simp [jobs_data, hst]
  refine ⟨hjobs, ?_, ?_⟩
  · unfold upload_file
    rw [hjobs]
    rfl
  · unfold upload_file
    cases profileEntries (parsed_of extracted_text) <;> rfl

/-- C4 witness: a 500 response on a failed extraction still produces the
full sentinel profile with an empty job list. -/
theorem search_failure_degrades_witness :
    upload_file "x".toList (HttpResult.resp 500 none) =
      some [(sSkills, Json.arr [Json.str sNA]), (sLocation, Json.str sNA),
            (sExperience, Json.str sNA), (sJobRole, Json.str sNA),
            (sJobs, Json.arr [])] := by
  have h := search_failure_degrades "x".toList (HttpResult.resp 500 none)
    (Or.inr ⟨500, none, rfl, by decide⟩)
  rw [h.2.1]
  rfl

theorem coerceSkills_not_list {v : Json} (hl : isList v = false) :
    coerceSkills v = if truthy v then [v] else [Json.str sNA] := by
  cases v
  case arr xs => simp [isList] at hl
  all_goals rfl

/-- C8: the `skills` field of the produced profile is always a list: a
list value is kept unchanged, a non-list truthy value `v` becomes `[v]`,
and a non-list falsy or absent value becomes `["N/A"]`. -/
theorem skills_always_list (kvs : List (Str × Json)) :
    (∀ xs, dictGet kvs sSkills = some (Json.arr xs) →
        skillsField (Json.obj kvs) = some xs) ∧
    (∀ v, dictGet kvs sSkills = some v → isList v = false → truthy v = true →
        skillsField (Json.obj kvs) = some [v]) ∧
    (∀ v, dictGet kvs sSkills = some v → isList v = false → truthy v = false →
        skillsField (Json.obj kvs) = some [Json.str sNA]) ∧
    (dictGet kvs sSkills = none →
        skillsField (Json.obj kvs) = some [Json.str sNA]) := by
  refine ⟨?_, ?_, ?_, ?_⟩
  · intro xs h
    simp only [skillsField, h, Option.getD_some]
    rfl
  · intro v h hl ht
    simp only [skillsField, h, Option.getD_some]
    rw [coerceSkills_not_list hl, if_pos ht]
  · intro v h hl ht
    simp only [skillsField, h, Option.getD_some]
    rw [coerceSkills_not_list hl, if_neg (by simp [ht])]
  · intro h
    simp only [skillsField, h, Option.getD_none]
    rfl

/-- C8 witness: the spec's example output — `skills` is the bare string
`"Go"` and is coerced to `["Go"]`; `experience` and `location` pass
through unchanged. -/
theorem skills_always_list_witness :
    skillsField (parsed_of exampleProfileText) = some [Json.str "Go".toList] ∧
    getField (parsed_of exampleProfileText) sExperience =
      some (Json.str "5y".toList) ∧
    getField (parsed_of exampleProfileText) sLocation = some (Json.str sNA) := by
  have hp : parsed_of exampleProfileText =
      Json.obj [(sSkills, Json.str "Go".toList), (sExperience, Json.str "5y".toList),
                (sLocation, Json.str sNA), (sJobTitle, Json.str "Engineer".toList)] := by
    rfl
  refine ⟨?_, by rw [hp]; rfl, by rw [hp]; rfl⟩
  rw [hp]
  exact (skills_always_list _).2.1 (Json.str "Go".toList) rfl rfl rfl

/-- C1 counterexample: on the raw output `"not json"` the upload pipeline
does NOT return an error-with-raw result — it returns a success-shaped
body whose keys are the five profile/jobs keys, with no `error` and no
`raw` field, and the raw text is discarded. -/
theorem parse_failure_no_raw_counterexample :
    upload_file "not json".toList HttpResult.raised =
      some [(sSkills, Json.arr [Json.str sNA]), (sLocation, Json.str sNA),
            (sExperience, Json.str sNA), (sJobRole, Json.str sNA),
            (sJobs, Json.arr [])] ∧
    sError ∉ [sSkills, sLocation, sExperience, sJobRole, sJobs] ∧
    sRaw ∉ [sSkills, sLocation, sExperience, sJobRole, sJobs] :=
  ⟨rfl, by decide, by decide⟩

/-- C1 (amended): the verbatim-raw error result lives in the
`extract_profile` tool (jobSearch.py), not in the upload pipeline: when
the strict parse of the stripped raw text fails, the tool returns
`{"error": ..., "raw": raw}` with the original raw text preserved
exactly; in the upload pipeline the raw text is discarded in favour of
the sentinel profile. -/
theorem extract_profile_raw_preserved (raw : Str)
    (h : jsonParse (pyStrip raw) = none) :
    extract_profile raw =
      Json.obj [(sError, Json.str badJsonMsg), (sRaw, Json.str raw)] ∧
    dictGet [(sError, Json.str badJsonMsg), (sRaw, Json.str raw)] sRaw =
      some (Json.str raw) := by
  constructor
  · unfold extract_profile
    rw [h]
  · rfl

/-- C1 witness: `"not json"` fails the strict parse and is preserved
verbatim in the tool's error result. -/
theorem extract_profile_raw_preserved_witness :
    extract_profile "not json".toList =
      Json.obj [(sError, Json.str badJsonMsg),
                (sRaw, Json.str "not json".toList)] :=
  (extract_profile_raw_preserved "not json".toList rfl).1

/-- The four profile entries always carry exactly the keys
`skills, location, experience, jobRole`, in that order. -/
theorem profileEntries_keys (parsed : Json) (pe : List (Str × Json))
    (h : profileEntries parsed = some pe) :
    pe.map Prod.fst = [sSkills, sLocation, sExperience, sJobRole] := by
  cases parsed with
  | obj kvs =>
    simp only [profileEntries, Option.some_inj] at h
    rw [← h]
    rfl
  | null => simp [profileEntries] at h
  | bool b => simp [profileEntries] at h
  | num l => simp [profileEntries] at h
  | str t => simp [profileEntries] at h
  | arr xs => simp [profileEntries] at h

/-- C2 counterexample: the response to the spec's example tool output has
key `jobRole`, not `jobTitle` — the claimed key set is wrong. -/
theorem response_key_jobTitle_counterexample :
    (upload_file exampleProfileText HttpResult.raised).map (List.map Prod.fst) =
      some [sSkills, sLocation, sExperience, sJobRole, sJobs] ∧
    sJobTitle ∉ [sSkills, sLocation, sExperience, sJobRole, sJobs] :=
  ⟨rfl, by decide⟩

/-- C2 (amended): every successful response body has exactly the keys
`skills, location, experience, jobRole, jobs` in order (with `jobRole` in
place of the claimed `jobTitle`), and every entry of the serialized jobs
list is an object with exactly the keys
`title, company, location, link, description`. -/
theorem response_body_keys (extracted_text : Str) (r : HttpResult)
    (body : List (Str × Json)) (h : upload_file extracted_text r = some body) :
    body.map Prod.fst = [sSkills, sLocation, sExperience, sJobRole, sJobs] ∧
    ∀ j ∈ (jobs_data r).map listingJson,
      jsonKeys j = [sTitle, sCompany, sLocation, sLink, sDescription] := by
  constructor
  · unfold upload_file at h
    cases hpe : profileEntries (parsed_of extracted_text) with
    | none => rw [hpe] at h; simp at h
    | some pe =>
      rw [hpe] at h
      simp only [Option.map_some', Option.some_inj] at h
      rw [← h]
      simp only [List.map_append, profileEntries_keys _ _ hpe]
      rfl
  · intro j hj
    simp only [List.mem_map] at hj
    obtain ⟨l, _, rfl⟩ := hj
    rfl

/-- C2 witness: a concrete successful response, keys evaluated. -/
theorem response_body_keys_witness :
    ∃ body, upload_file exampleProfileText HttpResult.raised = some body ∧
      body.map Prod.fst = [sSkills, sLocation, sExperience, sJobRole, sJobs] := by
  refine ⟨_, rfl, ?_⟩
  exact (response_body_keys exampleProfileText HttpResult.raised _ rfl).1

/-- C9: wrapping a parseable extraction output in the ```json … ``` fence
marker changes nothing: the cleaning pass strips the wrapper, the strict
parse succeeds, and the parsed profile is the same as for the unwrapped
output. -/
theorem fenced_wrapper_parses (s : Str) (p : Json)
    (h : jsonParse (cleaned_text s) = some p) :
    jsonParse (cleaned_text (fenceJson ++ s ++ tick3)) = some p ∧
    parsed_of (fenceJson ++ s ++ tick3) = parsed_of s := by
  constructor
  · rw [cleaned_text_wrap]
    exact h
  · unfold parsed_of
    rw [cleaned_text_wrap]

/-- C9 witness: a fenced profile object parses to the same profile as the
bare object. -/
theorem fenced_wrapper_parses_witness :
    jsonParse (cleaned_text
        (fenceJson ++ "\n\x7b\"jobRole\": \"Dev\"\x7d\n".toList ++ tick3)) =
      some (Json.obj [(sJobRole, Json.str "Dev".toList)]) ∧
    parsed_of (fenceJson ++ "\n\x7b\"jobRole\": \"Dev\"\x7d\n".toList ++ tick3) =
      parsed_of "\n\x7b\"jobRole\": \"Dev\"\x7d\n".toList :=
  fenced_wrapper_parses "\n\x7b\"jobRole\": \"Dev\"\x7d\n".toList
    (Json.obj [(sJobRole, Json.str "Dev".toList)]) rfl

/-- C10: when the strict parse of the extraction output fails, the
pipeline proceeds exactly as if extraction had produced the all-sentinel
profile: `parsed` becomes the sentinel object, the outbound query is
issued with the defaults `"Software Engineer"` / `"us"`, and the response
is success-shaped (the five profile/jobs keys, no `error` field). -/
theorem parse_failure_acts_as_sentinel (extracted_text : Str) (r : HttpResult)
    (h : jsonParse (cleaned_text extracted_text) = none) :
    parsed_of extracted_text = sentinelParsed ∧
    search_params (parsed_of extracted_text) =
      some (Json.str sSoftwareEngineer, Json.str sUs) ∧
    upload_file extracted_text r =
      some [(sSkills, Json.arr [Json.str sNA]), (sLocation, Json.str sNA),
            (sExperience, Json.str sNA), (sJobRole, Json.str sNA),
            (sJobs, Json.arr ((jobs_data r).map listingJson))] ∧
    sError ∉ [sSkills, sLocation, sExperience, sJobRole, sJobs] := by
  have hp : parsed_of extracted_text = sentinelParsed := by
    unfold parsed_of
    rw [h]
  refine ⟨hp, ?_, ?_, by decide⟩
  · rw [hp]
    rfl
  · unfold upload_file
    rw [hp]
    rfl

/-- C10 witness: unparseable output `"garbage"` with a failed search
yields the sentinel success-shaped response. -/
theorem parse_failure_acts_as_sentinel_witness :
    upload_file "garbage".toList HttpResult.raised =
      some [(sSkills, Json.arr [Json.str sNA]), (sLocation, Json.str sNA),
            (sExperience, Json.str sNA), (sJobRole, Json.str sNA),
            (sJobs, Json.arr [])] :=
  (parse_failure_acts_as_sentinel "garbage".toList HttpResult.raised rfl).2.2.1
